import Mathlib

/-!
Shallow embedding of the KodaiBot LINE task bot (repository KodaiJapan/KodaiBot).
The program logic modelled here is the reminder scheduler, the deadline parser
and the conversation state machine of `src/dist/index.js` (the built entry
point; `src/src/index.ts` is an earlier revision of the same file that lacks
the relative-date grammar and the universal 30-minute reminder block).
JavaScript numbers produced by this program are either integers or NaN, so
they are modelled by the two-constructor type `JsNum`; times are modelled as
integer milliseconds since the Unix epoch (all comparisons the program makes
on fractional minute values are scale-invariant, so they are stated exactly
on milliseconds).  The server runs with a UTC local time zone (Vercel), so
`new Date(y, m, d, ...)` is modelled as UTC construction.
-/

namespace KodaiBot

/-- JS number as produced by this program: an integer or NaN. -/
inductive JsNum
  | nan
  | int (n : Int)
deriving DecidableEq, Repr

/-- JS subtraction on the numbers this program handles: NaN propagates. -/
def JsNum.sub : JsNum → JsNum → JsNum
  | .int a, .int b => .int (a - b)
  | _, _ => .nan

def JsNum.isNan : JsNum → Bool
  | .nan => true
  | .int _ => false

/-- JS comparison `x < c`: false when `x` is NaN. -/
def JsNum.ltInt : JsNum → Int → Bool
  | .nan, _ => false
  | .int a, c => decide (a < c)

/-- JS comparison `x > c`: false when `x` is NaN. -/
def JsNum.gtInt : JsNum → Int → Bool
  | .nan, _ => false
  | .int a, c => decide (c < a)

/-- Integer value of a non-NaN JS number (default for the unreachable NaN case). -/
def JsNum.toIntD : JsNum → Int → Int
  | .nan, d => d
  | .int a, _ => a

/-- JS template-literal rendering of a number. -/
def jsNumToString : JsNum → String
  | .nan => "NaN"
  | .int n => toString n

/-- Whitespace in the sense of JS `\s` / `String.prototype.trim` (the
characters that occur in this program's inputs). -/
def isJsSpace (c : Char) : Bool :=
  c = ' ' ∨ c = '\t' ∨ c = '\n' ∨ c = '\r' ∨ c = ' ' ∨ c = '　'

/-- Greedy digit prefix of a character list (the `\d+` / `\d{1,2}` reader). -/
def readDigits : List Char → List Char × List Char
  | [] => ([], [])
  | c :: cs =>
    if c.isDigit then
      let p := readDigits cs
      (c :: p.1, p.2)
    else ([], c :: cs)

/-- Numeric value of a decimal digit character. -/
def digVal (c : Char) : Nat := c.toNat - 48

/-- `parseInt` on an all-digit capture. -/
def digitsToNat (ds : List Char) : Nat := ds.foldl (fun a c => 10 * a + digVal c) 0

/-- `parseInt(s, 10)`: skip leading whitespace, optional sign, then the
decimal digit prefix; NaN when no digits follow. -/
def jsParseIntCore (cs : List Char) : JsNum :=
  let cs1 := cs.dropWhile isJsSpace
  let sp : Int × List Char :=
    match cs1 with
    | '-' :: r => (-1, r)
    | '+' :: r => (1, r)
    | _ => (1, cs1)
  let p := readDigits sp.2
  if p.1 = [] then .nan else .int (sp.1 * (digitsToNat p.1 : Int))

def jsParseInt (s : String) : JsNum := jsParseIntCore s.data

/-- `String.prototype.trim`. -/
def jsTrimList (cs : List Char) : List Char :=
  ((cs.dropWhile isJsSpace).reverse.dropWhile isJsSpace).reverse

def jsTrim (s : String) : String := String.mk (jsTrimList s.data)

/-! ### Calendar arithmetic (model of the JS `Date` operations the program uses) -/

def isLeap (y : Nat) : Bool := (y % 4 == 0 && y % 100 != 0) || y % 400 == 0

def yearLen (y : Nat) : Nat := if isLeap y then 366 else 365

def monthLengths (y : Nat) : List Nat :=
  [31, if isLeap y then 29 else 28, 31, 30, 31, 30, 31, 31, 30, 31, 30, 31]

/-- Walk the month-length table: from a 0-based day of year to a (1-based
month, 1-based day) pair. -/
def findMonth : List Nat → Nat → Nat → Nat × Nat
  | [], m, d => (m, d + 1)
  | len :: rest, m, d => if d < len then (m, d + 1) else findMonth rest (m + 1) (d - len)

/-- Fuelled year walk from 1970; the fuel passed by `civilFromDays` always
suffices (each step consumes at least 365 days), so the fuel-exhausted
branch is unreachable. -/
def civilGo : Nat → Nat → Nat → Nat × Nat × Nat
  | 0, y, _ => (y, 1, 1)
  | fuel + 1, y, d =>
    if yearLen y ≤ d then civilGo fuel (y + 1) (d - yearLen y)
    else (y, findMonth (monthLengths y) 1 d)

/-- Proleptic Gregorian (year, month, day) of a day count since 1970-01-01,
as JS `getUTCFullYear`/`getUTCMonth + 1`/`getUTCDate` compute it. -/
def civilFromDays (days : Nat) : Nat × Nat × Nat := civilGo (days + 1) 1970 days

/-- Days from 1970-01-01 to the start of the year `1970 + n`. -/
def daysBeforeYear : Nat → Nat
  | 0 => 0
  | n + 1 => daysBeforeYear n + yearLen (1970 + n)

/-- Days of year `y` before the start of (1-based) month `m`. -/
def monthCumDays (y m : Nat) : Nat := ((monthLengths y).take (m - 1)).sum

/-- Milliseconds of `Date.UTC(y, m - 1, d, hh, mm)` for `y ≥ 1970`,
`m ∈ [1, 12]`, `d ≥ 1`; a day beyond the month length rolls forward exactly
as JS does. -/
def utcMs (y m d hh mm : Nat) : Nat :=
  (daysBeforeYear (y - 1970) + monthCumDays y m + (d - 1)) * 86400000
    + hh * 3600000 + mm * 60000

/-! ### Rendering of normalized deadlines -/

def decDigit : Nat → Char
  | 0 => '0'
  | 1 => '1'
  | 2 => '2'
  | 3 => '3'
  | 4 => '4'
  | 5 => '5'
  | 6 => '6'
  | 7 => '7'
  | 8 => '8'
  | _ => '9'

/-- Decimal rendering of a number below 100 (every number the deadline
renderer interpolates is at most 59); the fallback agrees with JS for
larger values. -/
def natToDec (n : Nat) : String :=
  if n < 10 then String.mk [decDigit n]
  else if n < 100 then String.mk [decDigit (n / 10), decDigit (n % 10)]
  else toString n

/-- The normalized deadline string `M月D日[ H時[Mi分]]` built by
`parseDeadlineInput` (the minute is only rendered when an hour is present,
as in the source). -/
def renderDeadline (m d : Nat) (hh mm : Option Nat) : String :=
  natToDec m ++ "月" ++ natToDec d ++ "日" ++
    (match hh with
     | none => ""
     | some h =>
       " " ++ natToDec h ++ "時" ++
         (match mm with
          | none => ""
          | some mi => natToDec mi ++ "分"))

/-! ### The two deadline grammars of `parseDeadlineInput` -/

/-- One-or-two-digit capture `(\d{1,2})` (three or more digits before a
non-digit make the whole group fail, as regex backtracking would). -/
def parse2Digits (cs : List Char) : Option (Nat × List Char) :=
  let p := readDigits cs
  if p.1.length = 1 ∨ p.1.length = 2 then some (digitsToNat p.1, p.2) else none

def expectChar (c : Char) : List Char → Option (List Char)
  | [] => none
  | x :: xs => if x = c then some xs else none

/-- Optional group `(?:\s*(\d{1,2})時)?`: on failure the position is reset. -/
def matchHourGroup (cs : List Char) : Option Nat × List Char :=
  let cs1 := cs.dropWhile isJsSpace
  match parse2Digits cs1 with
  | none => (none, cs)
  | some p =>
    match expectChar '時' p.2 with
    | none => (none, cs)
    | some r => (some p.1, r)

/-- Optional group `(?:\s*(\d{1,2})分)?`: on failure the position is reset. -/
def matchMinuteGroup (cs : List Char) : Option Nat × List Char :=
  let cs1 := cs.dropWhile isJsSpace
  match parse2Digits cs1 with
  | none => (none, cs)
  | some p =>
    match expectChar '分' p.2 with
    | none => (none, cs)
    | some r => (some p.1, r)

/-- The absolute grammar
`^(\d{1,2})月(\d{1,2})日(?:\s*(\d{1,2})時)?(?:\s*(\d{1,2})分)?$`. -/
def matchAbsolute (cs : List Char) : Option (Nat × Nat × Option Nat × Option Nat) :=
  match parse2Digits cs with
  | none => none
  | some pm =>
    match expectChar '月' pm.2 with
    | none => none
    | some r1 =>
      match parse2Digits r1 with
      | none => none
      | some pd =>
        match expectChar '日' pd.2 with
        | none => none
        | some r2 =>
          let ph := matchHourGroup r2
          let pmin := matchMinuteGroup ph.2
          if pmin.2 = [] then some (pm.1, pd.1, ph.1, pmin.1) else none

/-- The time tail `(?:の?(\d{1,2})時(?:(\d{1,2})分)?)?$` of the relative
grammar. -/
def matchRelTime : List Char → Option (Option Nat × Option Nat)
  | [] => some (none, none)
  | c :: cs =>
    let cs1 := if c = 'の' then cs else c :: cs
    match parse2Digits cs1 with
    | none => none
    | some ph =>
      match expectChar '時' ph.2 with
      | none => none
      | some r =>
        match r with
        | [] => some (some ph.1, none)
        | _ :: _ =>
          match parse2Digits r with
          | none => none
          | some pmi =>
            match expectChar '分' pmi.2 with
            | none => none
            | some r2 => if r2 = [] then some (some ph.1, some pmi.1) else none

def stripLiteral : List Char → List Char → Option (List Char)
  | [], cs => some cs
  | l :: ls, c :: cs => if c = l then stripLiteral ls cs else none
  | _ :: _, [] => none

/-- One alternative `今日|明日|明後日` of the relative grammar followed by the
time tail. -/
def matchRelAlt (lit : List Char) (days : Nat) (cs : List Char) :
    Option (Nat × Option Nat × Option Nat) :=
  match stripLiteral lit cs with
  | none => none
  | some r =>
    match matchRelTime r with
    | none => none
    | some t => some (days, t.1, t.2)

/-- The alternative `(\d+)日後` followed by the time tail. -/
def matchRelNDays (cs : List Char) : Option (Nat × Option Nat × Option Nat) :=
  let p := readDigits cs
  if p.1 = [] then none
  else
    match stripLiteral ['日', '後'] p.2 with
    | none => none
    | some r =>
      match matchRelTime r with
      | none => none
      | some t => some (digitsToNat p.1, t.1, t.2)

/-- The relative grammar
`^(今日|明日|明後日|(\d+)日後)(?:の?(\d{1,2})時(?:(\d{1,2})分)?)?$`,
alternatives tried in regex order. -/
def matchRelative (cs : List Char) : Option (Nat × Option Nat × Option Nat) :=
  match matchRelAlt ['今', '日'] 0 cs with
  | some t => some t
  | none =>
    match matchRelAlt ['明', '日'] 1 cs with
    | some t => some t
    | none =>
      match matchRelAlt ['明', '後', '日'] 2 cs with
      | some t => some t
      | none => matchRelNDays cs

/-- Day count since the epoch of JST "today" (`getJSTToday` computes the
civil JST date of `now` and rebuilds its UTC midnight). -/
def jstTodayCivil (now : Int) : Nat × Nat × Nat :=
  civilFromDays ((now + 32400000).ediv 86400000).toNat

/-- Mathematical time value of the relative grammar's target,
`Date.UTC(base.y, base.m, base.d + daysToAdd, hour ?? 0, minute ?? 0)`
before TimeClip; ECMAScript clips a time value whose magnitude exceeds
`8.64e15` ms to NaN (an Invalid Date), which the caller checks. -/
def relTargetMs (now : Int) (daysToAdd hh mm : Nat) : Nat :=
  let c := jstTodayCivil now
  utcMs c.1 c.2.1 (c.2.2 + daysToAdd) hh mm

/-- The ECMAScript Date time-value limit (8.64e15 ms): `Date.UTC` yields NaN
beyond it. -/
def jsTimeLimit : Nat := 8640000000000000

/-- Rendered deadline when the target Date is invalid (time value clipped to
NaN): `getUTCMonth() + 1` and `getUTCDate()` of an Invalid Date are NaN and
the template literal prints them as `NaN`, while the hour and minute come
from the captured input. -/
def renderDeadlineNaN (hh mm : Option Nat) : String :=
  "NaN月NaN日" ++
    (match hh with
     | none => ""
     | some h =>
       " " ++ natToDec h ++ "時" ++
         (match mm with
          | none => ""
          | some mi => natToDec mi ++ "分"))

/-- `parseDeadlineInput` of `src/dist/index.js`: relative grammar first, then
absolute; returns the normalized deadline string or `none`. -/
def parseDeadlineInput (now : Int) (input : String) : Option String :=
  let cs := jsTrimList input.data
  match matchRelative cs with
  | some t =>
    if (t.2.1.any fun h => decide (23 < h)) then none
    else if (t.2.2.any fun mi => decide (59 < mi)) then none
    else
      let tgt := relTargetMs now t.1 (t.2.1.getD 0) (t.2.2.getD 0)
      if jsTimeLimit < tgt then some (renderDeadlineNaN t.2.1 t.2.2)
      else
        let c := civilFromDays (tgt / 86400000)
        some (renderDeadline c.2.1 c.2.2 t.2.1 t.2.2)
  | none =>
    match matchAbsolute cs with
    | none => none
    | some q =>
      if q.1 < 1 ∨ 12 < q.1 ∨ q.2.1 < 1 ∨ 31 < q.2.1 then none
      else if (q.2.2.1.any fun h => decide (23 < h)) then none
      else if (q.2.2.2.any fun mi => decide (59 < mi)) then none
      else some (renderDeadline q.1 q.2.1 q.2.2.1 q.2.2.2)

/-- `parseDeadlineToDate`: normalized deadline string to an instant; the year
is the current one, bumped by one when the date already passed (no
hour/minute range check in the source). -/
def parseDeadlineToDate (now : Int) (deadline : String) : Option Int :=
  match matchAbsolute (jsTrimList deadline.data) with
  | none => none
  | some q =>
    if q.1 < 1 ∨ 12 < q.1 ∨ q.2.1 < 1 ∨ 31 < q.2.1 then none
    else
      let year := (civilFromDays (now.ediv 86400000).toNat).1
      let d0 : Int := utcMs year q.1 q.2.1 (q.2.2.1.getD 0) (q.2.2.2.getD 0)
      if d0 < now then (utcMs (year + 1) q.1 q.2.1 (q.2.2.1.getD 0) (q.2.2.2.getD 0) : Int)
      else d0

/-- Character-list view of `natToDec` for numbers below 100 (the only values
the deadline renderer prints). -/
def decChars (n : Nat) : List Char :=
  if n < 10 then [decDigit n] else [decDigit (n / 10), decDigit (n % 10)]

/-- Character-list view of the optional time tail of a rendered deadline. -/
def relTail : Option Nat → Option Nat → List Char
  | none, _ => []
  | some h, none => ' ' :: (decChars h ++ ['時'])
  | some h, some mi => ' ' :: (decChars h ++ '時' :: (decChars mi ++ ['分']))

/-! ### Task store -/

/-- The `Task` record (`remindersSent` is an optional field in the source). -/
structure Task where
  id : String
  name : String
  priority : JsNum
  deadline : String
  remindersSent : Option (List String)
deriving DecidableEq, Repr

/-- `task.remindersSent ?? []`. -/
def sentOf (t : Task) : List String := t.remindersSent.getD []

/-- The sort comparator `(a, b) => a.priority - b.priority`, as a
should-stay-in-order relation: a NaN comparator result is treated like 0 by
`Array.prototype.sort`. -/
def taskLe (a b : Task) : Bool :=
  match JsNum.sub a.priority b.priority with
  | .nan => true
  | .int n => decide (n ≤ 0)

/-- Insert after all elements that may stay before the new one; together with
`sortTasks` this is the stable sort that `Array.prototype.sort` performs. -/
def insertTask (t : Task) : List Task → List Task
  | [] => [t]
  | u :: us => if taskLe u t then u :: insertTask t us else t :: u :: us

/-- Stable sort by the priority comparator (JS `Array.prototype.sort` is
stable, so any stable sort models it). -/
def sortTasks (l : List Task) : List Task := l.foldl (fun acc t => insertTask t acc) []

/-- `addTask`: push then sort the copy. -/
def addTask (tasks : List Task) (t : Task) : List Task := sortTasks (tasks ++ [t])

/-- `removeTaskByIndex` (1-based); returns the new list and the success flag. -/
def removeTaskByIndex (tasks : List Task) (oneBased : Int) : List Task × Bool :=
  let i := oneBased - 1
  if i < 0 ∨ (tasks.length : Int) ≤ i then (tasks, false)
  else (tasks.eraseIdx i.toNat, true)

def modifyAt (i : Nat) (f : Task → Task) : List Task → List Task
  | [] => []
  | t :: ts =>
    match i with
    | 0 => f t :: ts
    | j + 1 => t :: modifyAt j f ts

/-- `updateTask`: find the task by id, apply the updater, re-sort. -/
def updateTaskList (tasks : List Task) (taskId : String) (f : Task → Task) : List Task :=
  match tasks.findIdx? (fun t => t.id == taskId) with
  | none => tasks
  | some i => sortTasks (modifyAt i f tasks)

/-- The updater passed to `updateTask` by the dispatch loop: append one slot
label to `remindersSent`. -/
def appendSent (t : Task) (l : String) : Task :=
  { t with remindersSent := some (sentOf t ++ [l]) }

/-! ### Reminder scheduler -/

/-- Output of `getJSTNow`: the JST date string `YYYY-MM-DD` and hour 0-23. -/
structure Jst where
  dateStr : String
  hour : Int
deriving DecidableEq, Repr

def pad2 (n : Nat) : String := if n < 10 then "0" ++ toString n else toString n

def getJSTNow (now : Int) : Jst :=
  let t := now + 32400000
  let c := civilFromDays (t.ediv 86400000).toNat
  { dateStr := toString c.1 ++ "-" ++ pad2 c.2.1 ++ "-" ++ pad2 c.2.2
    hour := (t.emod 86400000).ediv 3600000 }

/-- `getReminderSlots`: the `switch` returns `[{label: "1h", minutesBefore: 60}]`
for priority 4 and by `default:` for every other value. -/
def getReminderSlots (_priority : JsNum) : List (String × Int) := [("1h", 60)]

/-- The priority-4 slot loop: skip already-sent labels, and on the first slot
whose window contains the remaining time, deliver if the push succeeds and
`break` (`sendOk` tells whether a push of a given label succeeds; the window is
`remainingMinutes ≤ minutesBefore ∧ remainingMinutes > minutesBefore − 12`,
stated in milliseconds). -/
def p4Slots (sendOk : String → Bool) (sent : List String) (remMs : Int) :
    List (String × Int) → List String
  | [] => []
  | (label, mb) :: rest =>
    if label ∈ sent then p4Slots sendOk sent remMs rest
    else if remMs ≤ mb * 60000 ∧ (mb - 12) * 60000 < remMs then
      (if sendOk label then [label] else [])
    else p4Slots sendOk sent remMs rest

/-- The send/mark-sent block shared by the priority 1, 2 and 3 branches:
`if (slotKey != null && !sent.has(slotKey))` try the push; the label is
delivered (and later appended) only when the push succeeds. -/
def keyedEmit (sendOk : String → Bool) (sent : List String) : Option String → List String
  | none => []
  | some k => if k ∉ sent ∧ sendOk k then [k] else []

/-- Slot key of the priority-1 branch. -/
def slotKey1 (jst : Jst) (remMs : Int) : Option String :=
  if 604800000 ≤ remMs then
    (if jst.hour = 9 then some (jst.dateStr ++ "-9") else none)
  else if jst.hour = 8 then some (jst.dateStr ++ "-8")
  else if jst.hour = 12 then some (jst.dateStr ++ "-12")
  else if jst.hour = 18 then some (jst.dateStr ++ "-18")
  else none

/-- Slot key of the priority-2 branch. -/
def slotKey2 (jst : Jst) (remMs : Int) : Option String :=
  if 604800000 ≤ remMs then
    let daysLeft := remMs.ediv 86400000
    (if jst.hour = 12 ∧ 3 ≤ daysLeft ∧ daysLeft.emod 3 = 0 then
      some (toString daysLeft ++ "d-12") else none)
  else if jst.hour = 10 then some (jst.dateStr ++ "-10")
  else if jst.hour = 22 then some (jst.dateStr ++ "-22")
  else none

/-- Slot key of the priority-3 branch. -/
def slotKey3 (jst : Jst) (remMs : Int) : Option String :=
  if 604800000 ≤ remMs then
    let daysLeft := remMs.ediv 86400000
    (if jst.hour = 14 ∧ 5 ≤ daysLeft ∧ daysLeft.emod 5 = 0 then
      some (toString daysLeft ++ "d-14") else none)
  else if jst.hour = 17 then some (jst.dateStr ++ "-17")
  else none

/-- The final 30-minute block: `remainingMinutes ≤ 30 && remainingMinutes >
30 − windowMinutes && !sent.has("30m")`, delivering `"30m"` when the push
succeeds (`sent` is the set computed before the slot loop). -/
def em30Block (sendOk : String → Bool) (sent : List String) (remMs : Int) : List String :=
  if remMs ≤ 1800000 ∧ 1080000 < remMs ∧ "30m" ∉ sent then
    (if sendOk "30m" then ["30m"] else [])
  else []

/-- Slot labels delivered to one task by one `/remind` invocation; mirrors the
loop body of `app.get("/remind")` in `src/dist/index.js`.  A label is in the
result exactly when its push was attempted and succeeded, and each returned
label is also what the paired `updateTask` call appends (a failed push is
caught and appends nothing).  The priority 1, 2 and 3 branches end in
`continue`, so only the remaining branch (priority 4 and any other priority
value) reaches the final 30-minute block. -/
def remindTaskEmit (sendOk : String → Bool) (now : Int) (task : Task) : List String :=
  match parseDeadlineToDate now task.deadline with
  | none => []
  | some dl =>
    let remMs := dl - now
    if remMs < 0 then []
    else
      let jst := getJSTNow now
      let sent := sentOf task
      if task.priority = .int 1 then keyedEmit sendOk sent (slotKey1 jst remMs)
      else if task.priority = .int 2 then keyedEmit sendOk sent (slotKey2 jst remMs)
      else if task.priority = .int 3 then keyedEmit sendOk sent (slotKey3 jst remMs)
      else
        p4Slots sendOk sent remMs (getReminderSlots task.priority)
          ++ em30Block sendOk sent remMs

/-- One invocation's effect on one task: the delivered labels and the task
with those labels appended to `remindersSent` (each by its own `updateTask`
call). -/
def remindTask (sendOk : String → Bool) (now : Int) (task : Task) :
    List String × Task :=
  let em := remindTaskEmit sendOk now task
  (em, em.foldl appendSent task)

/-- The `/remind` task loop over the snapshot `tasks`, threading the store
through the per-label `updateTask` calls and collecting `(taskId, label)` for
every delivered notification. -/
def remindLoop (sendOk : String → String → Bool) (now : Int) :
    List Task → List Task → List (String × String) → List Task × List (String × String)
  | [], store, out => (store, out)
  | t :: rest, store, out =>
    let em := remindTaskEmit (sendOk t.id) now t
    remindLoop sendOk now rest
      (em.foldl (fun st l => updateTaskList st t.id (fun u => appendSent u l)) store)
      (out ++ em.map fun l => (t.id, l))

/-- One `/remind` invocation over the whole store. -/
def remindAll (sendOk : String → String → Bool) (now : Int) (store : List Task) :
    List Task × List (String × String) :=
  remindLoop sendOk now store store []

/-- Trace of delivered labels for one task over a sequence of invocations,
each with its own instant and push outcomes. -/
def remindTrace (steps : List (Int × (String → Bool))) (task : Task) : List String :=
  match steps with
  | [] => []
  | (now, ok) :: rest =>
    let r := remindTask ok now task
    r.1 ++ remindTrace rest r.2

/-! ### Conversation state machine (`textEventHandler`) -/

inductive AddStep
  | task_name
  | priority
  | deadline
deriving DecidableEq, Repr

/-- The `ConversationState` union type. -/
inductive ConvState
  | idle
  | task_add (step : AddStep) (taskName : Option String) (priority : Option JsNum)
  | task_complete
  | task_delete
deriving DecidableEq, Repr

/-- Result of handling one text event: new state, new task list, and the
reply (none when the handler returns without replying). -/
structure HandlerResult where
  state : ConvState
  tasks : List Task
  reply : Option String
deriving DecidableEq, Repr

def formatTaskList (tasks : List Task) : String :=
  if tasks.length = 0 then "（タスクはありません）"
  else
    String.intercalate "\n"
      (tasks.enum.map fun p =>
        toString (p.1 + 1) ++ ". " ++ p.2.name ++ "（優先" ++ jsNumToString p.2.priority
          ++ "・" ++ p.2.deadline ++ "まで）")

def cancelWords : List String := ["キャンセル", "やめる", "中止", "cancel"]

/-- The flow name used in the cancellation acknowledgement (the nested
ternary in the cancel branch of `textEventHandler`). -/
def cancelFlowName : ConvState → String
  | .task_add _ _ _ => "タスク追加"
  | .task_delete => "タスク削除"
  | _ => "タスク完了"

/-- `textEventHandler` of `src/dist/index.js` on a text message event:
`sender` is the event's `userId`, `allowedId` the `ALLOWED_LINE_USER_ID`
configuration, `now` the ambient clock (used for the task id and the
deadline parser). -/
def textEventHandler (now : Int) (allowedId : String) (sender : Option String)
    (rawText : String) (state : ConvState) (tasks : List Task) : HandlerResult :=
  let text := jsTrim rawText
  if ¬(allowedId ≠ "" ∧ sender = some allowedId) then ⟨state, tasks, none⟩
  else if text ∈ cancelWords ∧ state ≠ .idle then
    ⟨.idle, tasks, some (cancelFlowName state ++ "をキャンセルしました。")⟩
  else
    match state with
    | .task_add .task_name _ _ =>
      ⟨.task_add .priority (some text) none, tasks, some "優先順位は？1-4"⟩
    | .task_add .priority taskName prio0 =>
      let p := jsParseInt text
      if p.ltInt 1 ∨ p.gtInt 4 then
        ⟨.task_add .priority taskName prio0, tasks,
          some "1〜4の数字で入力してください。優先順位は？1-4"⟩
      else
        ⟨.task_add .deadline (some (taskName.getD "未定")) (some p), tasks,
          some "いつまでに終わらせたい？（例: 明日 / 3日後 / 12月25日14時30分）"⟩
    | .task_add .deadline taskName prio0 =>
      match parseDeadlineInput now text with
      | none =>
        ⟨.task_add .deadline taskName prio0, tasks,
          some "日付がわかりません。例: 今日 / 明日 / 3日後の18時 / 12月25日 のように入力してください。"⟩
      | some ds =>
        let task : Task :=
          { id := "task-" ++ toString now, name := taskName.getD "未定"
            priority := prio0.getD (.int 1), deadline := ds, remindersSent := some [] }
        ⟨.idle, addTask tasks task, some "了解です。優先順位に合わせてリマインドしていきます。"⟩
    | .task_complete =>
      let num := jsParseInt text
      if num.isNan ∨ num.ltInt 1 ∨ num.gtInt tasks.length then
        ⟨.task_complete, tasks,
          some ("番号が不正です。何番のタスクが終わりましたか？\n" ++ formatTaskList tasks)⟩
      else
        ⟨.idle, (removeTaskByIndex tasks (num.toIntD 0)).1,
          some "タスクリストから削除しました。Great job!"⟩
    | .task_delete =>
      let num := jsParseInt text
      if num.isNan ∨ num.ltInt 1 ∨ num.gtInt tasks.length then
        ⟨.task_delete, tasks,
          some ("番号が不正です。何番のタスクを削除しますか？\n" ++ formatTaskList tasks)⟩
      else
        ⟨.idle, (removeTaskByIndex tasks (num.toIntD 0)).1, some "削除しました。"⟩
    | .idle =>
      if text = "タスク追加" then
        ⟨.task_add .task_name none none, tasks, some "タスク名は？"⟩
      else if text = "タスク" then
        ⟨.idle, tasks, some ("タスク一覧ですね。どうぞ\n" ++ formatTaskList tasks)⟩
      else if text = "タスク完了" then
        if tasks.length = 0 then ⟨.idle, tasks, some "タスクはありません。"⟩
        else ⟨.task_complete, tasks, some ("何番のタスクが終わりましたか？\n" ++ formatTaskList tasks)⟩
      else if text = "タスク削除" then
        if tasks.length = 0 then ⟨.idle, tasks, some "タスクはありません。"⟩
        else ⟨.task_delete, tasks, some ("何番のタスクを削除しますか？\n" ++ formatTaskList tasks)⟩
      else ⟨.idle, tasks, some text⟩


/-! ### Scheduler lemmas: freshness, dedup, append behaviour -/

theorem keyedEmit_fresh {ok : String → Bool} {sent : List String} {k : Option String}
    {l : String} (h : l ∈ keyedEmit ok sent k) : l ∉ sent := by
  cases k with
  | none => simp [keyedEmit] at h
  | some s =>
    simp only [keyedEmit] at h
    split_ifs at h with hc
    · simp at h; subst h; exact hc.1
    · simp at h

theorem keyedEmit_nodup (ok : String → Bool) (sent : List String) (k : Option String) :
    (keyedEmit ok sent k).Nodup := by
  cases k with
  | none => simp [keyedEmit]
  | some s => simp only [keyedEmit]; split_ifs <;> simp

theorem keyedEmit_ok {ok : String → Bool} {sent : List String} {k : Option String}
    {l : String} (h : l ∈ keyedEmit ok sent k) : ok l = true := by
  cases k with
  | none => simp [keyedEmit] at h
  | some s =>
    simp only [keyedEmit] at h
    split_ifs at h with hc
    · simp at h; subst h; exact hc.2
    · simp at h

theorem keyedEmit_false (sent : List String) (k : Option String) :
    keyedEmit (fun _ => false) sent k = [] := by
  cases k <;> simp [keyedEmit]

theorem p4Slots_fresh {ok : String → Bool} {sent : List String} {remMs : Int}
    {slots : List (String × Int)} {l : String}
    (h : l ∈ p4Slots ok sent remMs slots) : l ∉ sent := by
  induction slots with
  | nil => simp [p4Slots] at h
  | cons s rest ih =>
    obtain ⟨label, mb⟩ := s
    simp only [p4Slots] at h
    split_ifs at h with h1 h2 h3
    · exact ih h
    · simp at h; subst h; exact h1
    · simp at h
    · exact ih h

theorem p4Slots_ok {ok : String → Bool} {sent : List String} {remMs : Int}
    {slots : List (String × Int)} {l : String}
    (h : l ∈ p4Slots ok sent remMs slots) : ok l = true := by
  induction slots with
  | nil => simp [p4Slots] at h
  | cons s rest ih =>
    obtain ⟨label, mb⟩ := s
    simp only [p4Slots] at h
    split_ifs at h with h1 h2 h3
    · exact ih h
    · simp at h; subst h; exact h3
    · simp at h
    · exact ih h

theorem p4Slots_false (sent : List String) (remMs : Int) (slots : List (String × Int)) :
    p4Slots (fun _ => false) sent remMs slots = [] := by
  induction slots with
  | nil => rfl
  | cons s rest ih =>
    obtain ⟨label, mb⟩ := s
    simp only [p4Slots]
    split_ifs with h1 h2 h3
    · exact ih
    · simp at h3
    · rfl
    · exact ih

theorem p4Slots_single (ok : String → Bool) (sent : List String) (remMs : Int)
    (label : String) (mb : Int) :
    p4Slots ok sent remMs [(label, mb)] = [] ∨ p4Slots ok sent remMs [(label, mb)] = [label] := by
  simp only [p4Slots]
  split_ifs <;> simp

theorem em30Block_fresh {ok : String → Bool} {sent : List String} {remMs : Int}
    {l : String} (h : l ∈ em30Block ok sent remMs) : l ∉ sent := by
  simp only [em30Block] at h
  split_ifs at h with h1 h2
  · simp at h; subst h; exact h1.2.2
  · simp at h
  · simp at h

theorem em30Block_ok {ok : String → Bool} {sent : List String} {remMs : Int}
    {l : String} (h : l ∈ em30Block ok sent remMs) : ok l = true := by
  simp only [em30Block] at h
  split_ifs at h with h1 h2
  · simp at h; subst h; exact h2
  · simp at h
  · simp at h

theorem em30Block_cases (ok : String → Bool) (sent : List String) (remMs : Int) :
    em30Block ok sent remMs = [] ∨ em30Block ok sent remMs = ["30m"] := by
  simp only [em30Block]
  split_ifs <;> simp

theorem em30Block_false (sent : List String) (remMs : Int) :
    em30Block (fun _ => false) sent remMs = [] := by
  simp [em30Block]

theorem remindTaskEmit_fresh {ok : String → Bool} {now : Int} {task : Task} {l : String}
    (h : l ∈ remindTaskEmit ok now task) : l ∉ sentOf task := by
  rcases hdl : parseDeadlineToDate now task.deadline with _ | dl
  · simp [remindTaskEmit, hdl] at h
  · simp only [remindTaskEmit, hdl] at h
    split_ifs at h with h0 h1 h2 h3
    · simp at h
    · exact keyedEmit_fresh h
    · exact keyedEmit_fresh h
    · exact keyedEmit_fresh h
    · rcases List.mem_append.mp h with h4 | h30
      · exact p4Slots_fresh h4
      · exact em30Block_fresh h30

theorem remindTaskEmit_nodup (ok : String → Bool) (now : Int) (task : Task) :
    (remindTaskEmit ok now task).Nodup := by
  rcases hdl : parseDeadlineToDate now task.deadline with _ | dl
  · simp [remindTaskEmit, hdl]
  · simp only [remindTaskEmit, hdl]
    split_ifs with h0 h1 h2 h3
    · simp
    · exact keyedEmit_nodup ..
    · exact keyedEmit_nodup ..
    · exact keyedEmit_nodup ..
    · rcases p4Slots_single ok (sentOf task) (dl - now) "1h" 60 with h4 | h4 <;>
        rcases em30Block_cases ok (sentOf task) (dl - now) with h5 | h5 <;>
          simp [getReminderSlots, h4, h5]

theorem remindTaskEmit_ok {ok : String → Bool} {now : Int} {task : Task} {l : String}
    (h : l ∈ remindTaskEmit ok now task) : ok l = true := by
  rcases hdl : parseDeadlineToDate now task.deadline with _ | dl
  · simp [remindTaskEmit, hdl] at h
  · simp only [remindTaskEmit, hdl] at h
    split_ifs at h with h0 h1 h2 h3
    · simp at h
    · exact keyedEmit_ok h
    · exact keyedEmit_ok h
    · exact keyedEmit_ok h
    · rcases List.mem_append.mp h with h4 | h30
      · exact p4Slots_ok h4
      · exact em30Block_ok h30

theorem remindTaskEmit_all_fail (now : Int) (task : Task) :
    remindTaskEmit (fun _ => false) now task = [] := by
  rcases hdl : parseDeadlineToDate now task.deadline with _ | dl
  · simp [remindTaskEmit, hdl]
  · simp only [remindTaskEmit, hdl]
    split_ifs with h0 h1 h2 h3
    · rfl
    · exact keyedEmit_false ..
    · exact keyedEmit_false ..
    · exact keyedEmit_false ..
    · rw [p4Slots_false, em30Block_false]; rfl

theorem sentOf_appendSent (t : Task) (l : String) :
    sentOf (appendSent t l) = sentOf t ++ [l] := by
  simp [appendSent, sentOf]

theorem sentOf_foldl_appendSent (ls : List String) (t : Task) :
    sentOf (ls.foldl appendSent t) = sentOf t ++ ls := by
  induction ls generalizing t with
  | nil => simp
  | cons l rest ih => simp [List.foldl_cons, ih, sentOf_appendSent]

theorem foldl_appendSent_fields (ls : List String) (t : Task) :
    (ls.foldl appendSent t).deadline = t.deadline ∧
    (ls.foldl appendSent t).priority = t.priority := by
  induction ls generalizing t with
  | nil => exact ⟨rfl, rfl⟩
  | cons l rest ih => simpa [List.foldl_cons, appendSent] using ih (appendSent t l)

/-- A label emitted by a later invocation is never already in the task's
current sent record. -/
theorem remindTrace_fresh (steps : List (Int × (String → Bool))) (task : Task)
    (l : String) (h : l ∈ remindTrace steps task) : l ∉ sentOf task := by
  induction steps generalizing task with
  | nil => simp [remindTrace] at h
  | cons s rest ih =>
    obtain ⟨now, ok⟩ := s
    simp only [remindTrace, remindTask] at h
    rcases List.mem_append.mp h with h1 | h2
    · exact remindTaskEmit_fresh h1
    · have h3 := ih _ h2
      rw [sentOf_foldl_appendSent] at h3
      intro hmem
      exact h3 (List.mem_append_left _ hmem)



/-- C1: for every task and every sequence of reminder dispatch-loop
invocations, the task never receives two notifications bearing the same slot
label: every invocation emits a slot only when its label is absent from the
task's sent record and appends the label on success, so the concatenated
delivery trace is duplicate-free. -/
theorem claim_C1_no_duplicate_slot_labels :
    ∀ (steps : List (Int × (String → Bool))) (task : Task),
      (remindTrace steps task).Nodup := by
  intro steps
  induction steps with
  | nil => intro task; simp [remindTrace]
  | cons s rest ih =>
    intro task
    obtain ⟨now, ok⟩ := s
    simp only [remindTrace, remindTask]
    refine List.Nodup.append (remindTaskEmit_nodup ok now task) (ih _) ?_
    intro l hl hlr
    have h1 := remindTrace_fresh rest _ l hlr
    rw [sentOf_foldl_appendSent] at h1
    exact h1 (List.mem_append_right _ hl)

theorem remindLoop_out (sendOk : String → String → Bool) (now : Int)
    (snap store : List Task) (out : List (String × String)) :
    (remindLoop sendOk now snap store out).2
      = out ++ snap.flatMap fun t =>
          (remindTaskEmit (sendOk t.id) now t).map fun l => (t.id, l) := by
  induction snap generalizing store out with
  | nil => simp [remindLoop]
  | cons t rest ih => simp [remindLoop, ih]

/-- C6: a failed push delivers nothing and leaves the task's sent record
unchanged (enabling a retry on the next invocation); every delivered label
had a successful push; and the notifications of one invocation decompose
per snapshot task, so one task's failure never aborts the processing of the
remaining tasks. -/
theorem claim_C6_send_failure_isolated :
    ∀ (now : Int) (task : Task) (ok : String → Bool)
      (sendOk : String → String → Bool) (store : List Task),
      remindTask (fun _ => false) now task = ([], task) ∧
      (remindTaskEmit ok now task).all ok = true ∧
      (remindAll sendOk now store).2
        = store.flatMap (fun t =>
            (remindTaskEmit (sendOk t.id) now t).map fun l => (t.id, l)) := by
  intro now task ok sendOk store
  refine ⟨?_, ?_, ?_⟩
  · simp [remindTask, remindTaskEmit_all_fail]
  · simp only [List.all_eq_true]
    intro l hl
    exact remindTaskEmit_ok hl
  · simpa [remindAll] using remindLoop_out sendOk now store store []

/-- C7: for a priority-4 task with fresh labels, the `1h` slot is delivered
exactly when the remaining time lies in the half-open window
`(48 min, 60 min]` and the universal `30m` slot exactly when it lies in
`(18 min, 30 min]` — inclusive at the nominal boundary, exclusive beyond it
(all times in milliseconds). -/
theorem claim_C7_p4_window_half_open (now dl : Int) (task : Task)
    (hp : task.priority = .int 4)
    (hdl : parseDeadlineToDate now task.deadline = some dl)
    (h1 : "1h" ∉ sentOf task) (h30 : "30m" ∉ sentOf task) :
    (("1h" ∈ remindTaskEmit (fun _ => true) now task) ↔
        (2880000 < dl - now ∧ dl - now ≤ 3600000)) ∧
    (("30m" ∈ remindTaskEmit (fun _ => true) now task) ↔
        (1080000 < dl - now ∧ dl - now ≤ 1800000)) := by
  have hne1 : ¬ task.priority = JsNum.int 1 := by simp [hp]
  have hne2 : ¬ task.priority = JsNum.int 2 := by simp [hp]
  have hne3 : ¬ task.priority = JsNum.int 3 := by simp [hp]
  simp only [remindTaskEmit, hdl, if_neg hne1, if_neg hne2, if_neg hne3, getReminderSlots]
  simp only [p4Slots, em30Block, if_neg h1]
  split_ifs <;> simp_all <;> omega

/-- Witness for C7: a concrete priority-4 task exactly 60 minutes before its
deadline, discharging the hypotheses of the window theorem. -/
theorem claim_C7_p4_window_half_open_witness :
    (("1h" ∈ remindTaskEmit (fun _ => true) (utcMs 2025 12 25 2 0)
        { id := "t4", name := "T", priority := .int 4, deadline := "12月25日 3時",
          remindersSent := some [] }) ↔
      (2880000 < (utcMs 2025 12 25 3 0 : Int) - (utcMs 2025 12 25 2 0 : Int) ∧
        (utcMs 2025 12 25 3 0 : Int) - (utcMs 2025 12 25 2 0 : Int) ≤ 3600000)) ∧
    (("30m" ∈ remindTaskEmit (fun _ => true) (utcMs 2025 12 25 2 0)
        { id := "t4", name := "T", priority := .int 4, deadline := "12月25日 3時",
          remindersSent := some [] }) ↔
      (1080000 < (utcMs 2025 12 25 3 0 : Int) - (utcMs 2025 12 25 2 0 : Int) ∧
        (utcMs 2025 12 25 3 0 : Int) - (utcMs 2025 12 25 2 0 : Int) ≤ 1800000)) :=
  claim_C7_p4_window_half_open (utcMs 2025 12 25 2 0) (utcMs 2025 12 25 3 0)
    { id := "t4", name := "T", priority := .int 4, deadline := "12月25日 3時",
      remindersSent := some [] } rfl (by decide) (by decide) (by decide)



/-! ### Stable sort lemmas for `addTask` -/

theorem taskLe_total {a b : Task} (h : taskLe a b = false) : taskLe b a = true := by
  unfold taskLe at h ⊢
  rcases ha : a.priority with _ | x <;> rcases hb : b.priority with _ | y <;>
      rw [ha, hb] at h <;> simp [JsNum.sub] at h ⊢ <;> omega

theorem taskLe_false_lt {a b : Task} (h : taskLe a b = false) :
    ∃ x y, a.priority = .int x ∧ b.priority = .int y ∧ y < x := by
  unfold taskLe at h
  rcases ha : a.priority with _ | x <;> rcases hb : b.priority with _ | y <;>
      rw [ha, hb] at h <;> simp [JsNum.sub] at h
  exact ⟨x, y, rfl, rfl, by omega⟩

theorem taskLe_int {a b : Task} {x y : Int} (ha : a.priority = .int x)
    (hb : b.priority = .int y) : taskLe a b = true ↔ x ≤ y := by
  unfold taskLe
  rw [ha, hb]
  constructor
  · intro h
    simp [JsNum.sub] at h
    omega
  · intro h
    simp [JsNum.sub]
    omega

theorem taskLe_trans {a b c : Task} (hb : b.priority.isNan = false)
    (h1 : taskLe a b = true) (h2 : taskLe b c = true) : taskLe a c = true := by
  cases hbv : b.priority with
  | nan => rw [hbv] at hb; simp [JsNum.isNan] at hb
  | int y =>
    cases hav : a.priority with
    | nan => unfold taskLe; rw [hav]; simp [JsNum.sub]
    | int x =>
      cases hcv : c.priority with
      | nan => unfold taskLe; rw [hav, hcv]; simp [JsNum.sub]
      | int z =>
        rw [taskLe_int hav hbv] at h1
        rw [taskLe_int hbv hcv] at h2
        rw [taskLe_int hav hcv]
        omega

theorem mem_insertTask {u t : Task} {l : List Task} :
    u ∈ insertTask t l ↔ u = t ∨ u ∈ l := by
  induction l with
  | nil => simp [insertTask]
  | cons v vs ih =>
    simp only [insertTask]
    split_ifs
    · simp only [List.mem_cons, ih]
      try tauto
    · simp only [List.mem_cons]
      try tauto

theorem insertTask_pairwise {t : Task} {l : List Task}
    (hint : ∀ u ∈ l, u.priority.isNan = false)
    (hl : l.Pairwise (fun a b => taskLe a b = true)) :
    (insertTask t l).Pairwise (fun a b => taskLe a b = true) := by
  induction l with
  | nil => simp [insertTask]
  | cons v vs ih =>
    rw [List.pairwise_cons] at hl
    simp only [insertTask]
    split_ifs with hle
    · rw [List.pairwise_cons]
      constructor
      · intro u hu
        rcases mem_insertTask.1 hu with rfl | hu
        · exact hle
        · exact hl.1 u hu
      · exact ih (fun u hu => hint u (List.mem_cons_of_mem _ hu)) hl.2
    · rw [List.pairwise_cons]
      refine ⟨?_, List.pairwise_cons.mpr ⟨hl.1, hl.2⟩⟩
      intro u hu
      rcases List.mem_cons.mp hu with rfl | hu
      · exact taskLe_total (by simpa using hle)
      · exact taskLe_trans (hint v (by simp)) (taskLe_total (by simpa using hle)) (hl.1 u hu)

theorem sortTasks_pairwise_aux (l acc : List Task)
    (hint : ∀ u ∈ acc ++ l, u.priority.isNan = false)
    (hacc : acc.Pairwise (fun a b => taskLe a b = true)) :
    (l.foldl (fun a t => insertTask t a) acc).Pairwise (fun a b => taskLe a b = true) := by
  induction l generalizing acc with
  | nil => simpa using hacc
  | cons t ts ih =>
    simp only [List.foldl_cons]
    refine ih (insertTask t acc) ?_ ?_
    · intro u hu
      rcases List.mem_append.mp hu with hu | hu
      · rcases mem_insertTask.1 hu with rfl | hu
        · exact hint u (by simp)
        · exact hint u (by simp [hu])
      · exact hint u (by simp [hu])
    · exact insertTask_pairwise (fun u hu => hint u (by simp [hu])) hacc

theorem sortTasks_pairwise (l : List Task)
    (hint : ∀ u ∈ l, u.priority.isNan = false) :
    (sortTasks l).Pairwise (fun a b => taskLe a b = true) := by
  unfold sortTasks
  exact sortTasks_pairwise_aux l [] (by simpa using hint) (by simp)

theorem insertTask_filter (p : JsNum) {t : Task} {l : List Task}
    (hint : ∀ u ∈ l, u.priority.isNan = false)
    (hl : l.Pairwise (fun a b => taskLe a b = true)) :
    (insertTask t l).filter (fun u => u.priority == p)
      = (if (t.priority == p) = true
          then l.filter (fun u => u.priority == p) ++ [t]
          else l.filter (fun u => u.priority == p)) := by
  induction l with
  | nil =>
    simp only [insertTask, List.filter_cons, List.filter_nil]
    split_ifs <;> simp
  | cons v vs ih =>
    rw [List.pairwise_cons] at hl
    simp only [insertTask]
    by_cases hle : taskLe v t = true
    · rw [if_pos hle]
      simp only [List.filter_cons]
      rw [ih (fun u hu => hint u (List.mem_cons_of_mem _ hu)) hl.2]
      split_ifs <;> simp
    · rw [if_neg hle]
      obtain ⟨x, y, hvx, hty, hyx⟩ := taskLe_false_lt (by simpa using hle)
      by_cases ht : (t.priority == p) = true
      · have hnone : (v :: vs).filter (fun u => u.priority == p) = [] := by
          rw [List.filter_eq_nil_iff]
          intro u hu
          have huint : u.priority.isNan = false := hint u hu
          have huv : taskLe v u = true := by
            rcases List.mem_cons.mp hu with rfl | hu
            · rw [taskLe_int hvx hvx]
            · exact hl.1 u hu
          cases huz : u.priority with
          | nan => rw [huz] at huint; simp [JsNum.isNan] at huint
          | int z =>
            rw [taskLe_int hvx huz] at huv
            have hpt : t.priority = p := by simpa using ht
            simp only [beq_iff_eq]
            intro hup
            rw [← hpt, hty] at hup
            injection hup with hup
            omega
        rw [if_pos ht, List.filter_cons, hnone]
        simp [ht]
      · rw [if_neg ht, List.filter_cons]
        simp [ht]

theorem sortTasks_filter_aux (p : JsNum) (l acc : List Task)
    (hint : ∀ u ∈ acc ++ l, u.priority.isNan = false)
    (hacc : acc.Pairwise (fun a b => taskLe a b = true)) :
    (l.foldl (fun a t => insertTask t a) acc).filter (fun u => u.priority == p)
      = acc.filter (fun u => u.priority == p) ++ l.filter (fun u => u.priority == p) := by
  induction l generalizing acc with
  | nil => simp
  | cons t ts ih =>
    simp only [List.foldl_cons]
    rw [ih (insertTask t acc)
      (by
        intro u hu
        rcases List.mem_append.mp hu with hu | hu
        · rcases mem_insertTask.1 hu with rfl | hu
          · exact hint u (by simp)
          · exact hint u (by simp [hu])
        · exact hint u (by simp [hu]))
      (insertTask_pairwise (fun u hu => hint u (by simp [hu])) hacc)]
    rw [insertTask_filter p (fun u hu => hint u (by simp [hu])) hacc]
    rw [List.filter_cons]
    split_ifs with ht <;> simp

theorem sortTasks_filter (p : JsNum) (l : List Task)
    (hint : ∀ u ∈ l, u.priority.isNan = false) :
    (sortTasks l).filter (fun u => u.priority == p) = l.filter (fun u => u.priority == p) := by
  unfold sortTasks
  simpa using sortTasks_filter_aux p l [] (by simpa using hint) (by simp)

/-- C8: after every `addTask` the stored list is sorted by ascending priority
(`taskLe` is the comparator order) and, for every priority value, the tasks
of that priority keep their insertion order (a stable sort on priority only);
concretely, inserting "A" (priority 3) then "B" (priority 1) lists B first,
and removing 1-based index 1 removes B. -/
theorem claim_C8_addTask_sorted_stable (tasks : List Task) (t : Task)
    (hint : ∀ u ∈ tasks ++ [t], u.priority.isNan = false) :
    (addTask tasks t).Pairwise (fun a b => taskLe a b = true) ∧
    (∀ p : JsNum, (addTask tasks t).filter (fun u => u.priority == p)
        = (tasks ++ [t]).filter (fun u => u.priority == p)) ∧
    (addTask
        (addTask [] { id := "a", name := "A", priority := .int 3, deadline := "12月25日",
                      remindersSent := some [] })
        { id := "b", name := "B", priority := .int 1, deadline := "12月26日",
          remindersSent := some [] }
      = [{ id := "b", name := "B", priority := .int 1, deadline := "12月26日",
           remindersSent := some [] },
         { id := "a", name := "A", priority := .int 3, deadline := "12月25日",
           remindersSent := some [] }] ∧
     removeTaskByIndex
        (addTask
          (addTask [] { id := "a", name := "A", priority := .int 3, deadline := "12月25日",
                        remindersSent := some [] })
          { id := "b", name := "B", priority := .int 1, deadline := "12月26日",
            remindersSent := some [] }) 1
      = ([{ id := "a", name := "A", priority := .int 3, deadline := "12月25日",
            remindersSent := some [] }], true)) := by
  exact ⟨sortTasks_pairwise _ hint, fun p => sortTasks_filter p _ hint, by decide, by decide⟩

/-- Witness for C8 at a concrete input discharging the integer-priority
hypothesis. -/
theorem claim_C8_addTask_sorted_stable_witness :
    (addTask [] { id := "w", name := "W", priority := .int 2, deadline := "1月1日",
                  remindersSent := some [] }).Pairwise (fun a b => taskLe a b = true) :=
  (claim_C8_addTask_sorted_stable []
    { id := "w", name := "W", priority := .int 2, deadline := "1月1日",
      remindersSent := some [] } (by decide)).1



/-! ### Digit and character facts for the deadline grammar -/

theorem decDigit_spec (d : Nat) (hd : d < 10) :
    (decDigit d).isDigit = true ∧ isJsSpace (decDigit d) = false ∧ digVal (decDigit d) = d ∧
    decDigit d ≠ '今' ∧ decDigit d ≠ '明' := by
  interval_cases d <;> exact ⟨by decide, by decide, by decide, by decide, by decide⟩

theorem decChars_digits (n : Nat) (hn : n < 100) :
    (∀ c ∈ decChars n, c.isDigit = true ∧ isJsSpace c = false ∧ c ≠ '今' ∧ c ≠ '明') ∧
    decChars n ≠ [] ∧ digitsToNat (decChars n) = n ∧
    ((decChars n).length = 1 ∨ (decChars n).length = 2) := by
  unfold decChars
  split_ifs with h
  · obtain ⟨h1, h2, h3, h4, h5⟩ := decDigit_spec n h
    refine ⟨?_, by simp, by simp [digitsToNat, h3], by simp⟩
    intro c hc
    rw [List.mem_singleton] at hc
    subst hc
    exact ⟨h1, h2, h4, h5⟩
  · have hq : n / 10 < 10 := by omega
    have hr : n % 10 < 10 := by omega
    obtain ⟨q1, q2, q3, q4, q5⟩ := decDigit_spec (n / 10) hq
    obtain ⟨r1, r2, r3, r4, r5⟩ := decDigit_spec (n % 10) hr
    refine ⟨?_, by simp, ?_, by simp⟩
    · intro c hc
      rcases List.mem_cons.mp hc with rfl | hc
      · exact ⟨q1, q2, q4, q5⟩
      · rw [List.mem_singleton] at hc
        subst hc
        exact ⟨r1, r2, r4, r5⟩
    · simp [digitsToNat, q3, r3]
      omega

theorem decChars_cons (n : Nat) (hn : n < 100) :
    ∃ c cs, decChars n = c :: cs ∧ c.isDigit = true ∧ isJsSpace c = false ∧
      c ≠ '今' ∧ c ≠ '明' := by
  obtain ⟨hmem, hne, _, _⟩ := decChars_digits n hn
  cases hd : decChars n with
  | nil => exact absurd hd hne
  | cons c cs =>
    have := hmem c (by rw [hd]; simp)
    exact ⟨c, cs, rfl, this.1, this.2.1, this.2.2.1, this.2.2.2⟩

theorem head_all (c : Char) (rest : List Char) (P : Char → Prop) (hc : P c) :
    ∀ x ∈ (c :: rest).head?, P x := by
  intro x hx
  have : some c = some x := hx
  injection this with hcx
  rw [← hcx]
  exact hc

theorem readDigits_append (ds rest : List Char)
    (h1 : ∀ c ∈ ds, c.isDigit = true)
    (h2 : ∀ c ∈ rest.head?, c.isDigit = false) :
    readDigits (ds ++ rest) = (ds, rest) := by
  induction ds with
  | nil =>
    cases rest with
    | nil => rfl
    | cons c cs =>
      simp only [List.nil_append, readDigits]
      rw [if_neg]
      simp [h2 c rfl]
  | cons d ds ih =>
    simp only [List.cons_append, readDigits]
    rw [if_pos (h1 d (by simp))]
    show (d :: (readDigits (ds ++ rest)).1, (readDigits (ds ++ rest)).2) = (d :: ds, rest)
    rw [ih (fun c hc => h1 c (by simp [hc]))]

theorem parse2Digits_decChars (n : Nat) (hn : n < 100) (rest : List Char)
    (h2 : ∀ c ∈ rest.head?, c.isDigit = false) :
    parse2Digits (decChars n ++ rest) = some (n, rest) := by
  obtain ⟨hmem, hne, hval, hlen⟩ := decChars_digits n hn
  simp only [parse2Digits]
  rw [readDigits_append _ _ (fun c hc => (hmem c hc).1) h2]
  rcases hlen with h | h <;> simp [h, hval]

theorem dropWhile_head_false (p : Char → Bool) (l : List Char)
    (h : ∀ c ∈ l.head?, p c = false) : l.dropWhile p = l := by
  cases l with
  | nil => rfl
  | cons c cs =>
    rw [List.dropWhile_cons, if_neg]
    simp [h c rfl]

theorem jsTrimList_eq (l : List Char)
    (h1 : ∀ c ∈ l.head?, isJsSpace c = false)
    (h2 : ∀ c ∈ l.getLast?, isJsSpace c = false) :
    jsTrimList l = l := by
  unfold jsTrimList
  rw [dropWhile_head_false _ l h1]
  rw [dropWhile_head_false _ l.reverse (by simpa [List.head?_reverse] using h2)]
  exact List.reverse_reverse l

/-! ### Calendar bounds: `civilFromDays` always yields a valid month and day -/

theorem monthLengths_le (y : Nat) : ∀ x ∈ monthLengths y, x ≤ 31 := by
  unfold monthLengths
  cases isLeap y <;> decide

theorem monthLengths_sum (y : Nat) : (monthLengths y).sum = yearLen y := by
  unfold monthLengths yearLen
  cases isLeap y <;> simp

theorem monthLengths_length (y : Nat) : (monthLengths y).length = 12 := by
  unfold monthLengths
  cases isLeap y <;> rfl

theorem findMonth_bounds (L : List Nat) (m0 d : Nat)
    (hL : ∀ x ∈ L, x ≤ 31) (hd : d < L.sum) :
    m0 ≤ (findMonth L m0 d).1 ∧ (findMonth L m0 d).1 < m0 + L.length ∧
    1 ≤ (findMonth L m0 d).2 ∧ (findMonth L m0 d).2 ≤ 31 := by
  induction L generalizing m0 d with
  | nil => simp at hd
  | cons len rest ih =>
    simp only [findMonth]
    split_ifs with hlt <;> try dsimp only
    · have hlen := hL len (by simp)
      simp only [List.length_cons]
      exact ⟨le_refl _, by omega, by omega, by omega⟩
    · have hsum : d - len < rest.sum := by
        simp only [List.sum_cons] at hd
        omega
      have := ih (m0 + 1) (d - len) (fun x hx => hL x (by simp [hx])) hsum
      simp only [List.length_cons]
      exact ⟨by omega, by omega, this.2.2⟩

theorem civilGo_bounds (fuel : Nat) : ∀ (y d : Nat),
    1 ≤ (civilGo fuel y d).2.1 ∧ (civilGo fuel y d).2.1 ≤ 12 ∧
    1 ≤ (civilGo fuel y d).2.2 ∧ (civilGo fuel y d).2.2 ≤ 31 := by
  induction fuel with
  | zero => intro y d; simp [civilGo]
  | succ n ih =>
    intro y d
    simp only [civilGo]
    split_ifs with hle
    · exact ih _ _
    · dsimp only
      have hd : d < (monthLengths y).sum := by
        rw [monthLengths_sum]
        omega
      have h := findMonth_bounds (monthLengths y) 1 d (monthLengths_le y) hd
      rw [monthLengths_length] at h
      exact ⟨h.1, by omega, h.2.2⟩

theorem civilFromDays_bounds (days : Nat) :
    1 ≤ (civilFromDays days).2.1 ∧ (civilFromDays days).2.1 ≤ 12 ∧
    1 ≤ (civilFromDays days).2.2 ∧ (civilFromDays days).2.2 ≤ 31 := by
  unfold civilFromDays
  exact civilGo_bounds (days + 1) 1970 days



/-! ### Rendered deadlines re-parse: the round-trip of `parseDeadlineInput` -/

theorem natToDec_data (n : Nat) (hn : n < 100) : (natToDec n).data = decChars n := by
  unfold natToDec decChars
  split_ifs with h1 h2 <;> first | rfl | omega

theorem renderDeadline_data (m d : Nat) (hm : m < 100) (hd : d < 100)
    (hh mm : Option Nat) (hh100 : ∀ h ∈ hh, h < 100) (mm100 : ∀ mi ∈ mm, mi < 100) :
    (renderDeadline m d hh mm).data
      = decChars m ++ '月' :: (decChars d ++ '日' :: relTail hh mm) := by
  cases hh with
  | none =>
    cases mm <;>
      simp [renderDeadline, relTail, natToDec_data m hm, natToDec_data d hd]
  | some h =>
    have eh := natToDec_data h (hh100 h rfl)
    cases mm with
    | none => simp [renderDeadline, relTail, natToDec_data m hm, natToDec_data d hd, eh]
    | some mi =>
      have emi := natToDec_data mi (mm100 mi rfl)
      simp [renderDeadline, relTail, natToDec_data m hm, natToDec_data d hd, eh, emi]

theorem cons_getLast (x : Char) (X : List Char) (hX : X ≠ []) :
    (x :: X).getLast? = X.getLast? := by
  rw [show x :: X = [x] ++ X from rfl]
  exact List.getLast?_append_of_ne_nil _ hX

theorem render_last_ok (m d : Nat) (hh mm : Option Nat) :
    ∀ c ∈ (decChars m ++ '月' :: (decChars d ++ '日' :: relTail hh mm)).getLast?,
      isJsSpace c = false := by
  have final : ∀ (k : Char), isJsSpace k = false →
      ∀ c ∈ (some k : Option Char), isJsSpace c = false := by
    intro k hk c hc
    have : some k = some c := hc
    injection this with h'
    rw [← h']
    exact hk
  cases hh with
  | none =>
    have hshape : decChars m ++ '月' :: (decChars d ++ '日' :: relTail none mm)
        = (decChars m ++ '月' :: decChars d) ++ ['日'] := by
      simp [relTail]
    rw [hshape, List.getLast?_append_of_ne_nil _ (by simp)]
    exact final '日' (by decide)
  | some h =>
    cases mm with
    | none =>
      have hshape : decChars m ++ '月' :: (decChars d ++ '日' :: relTail (some h) none)
          = (decChars m ++ '月' :: (decChars d ++ '日' :: ' ' :: decChars h)) ++ ['時'] := by
        simp [relTail]
      rw [hshape, List.getLast?_append_of_ne_nil _ (by simp)]
      exact final '時' (by decide)
    | some mi =>
      have hshape : decChars m ++ '月' :: (decChars d ++ '日' :: relTail (some h) (some mi))
          = (decChars m ++ '月' :: (decChars d ++ '日' :: ' ' :: (decChars h
              ++ '時' :: decChars mi))) ++ ['分'] := by
        simp [relTail]
      rw [hshape, List.getLast?_append_of_ne_nil _ (by simp)]
      exact final '分' (by decide)

theorem dropWhile_space_decChars (n : Nat) (hn : n < 100) (rest : List Char) :
    (decChars n ++ rest).dropWhile isJsSpace = decChars n ++ rest := by
  obtain ⟨c, cs, hdc, _, hsp, _, _⟩ := decChars_cons n hn
  rw [hdc]
  exact dropWhile_head_false _ _ (head_all c _ _ hsp)

theorem matchHourGroup_nil : matchHourGroup [] = (none, []) := rfl

theorem matchMinuteGroup_nil : matchMinuteGroup [] = (none, []) := rfl

theorem matchHourGroup_time (h : Nat) (hn : h < 100) (rest : List Char) :
    matchHourGroup (' ' :: (decChars h ++ '時' :: rest)) = (some h, rest) := by
  have hstep : (' ' :: (decChars h ++ '時' :: rest)).dropWhile isJsSpace
      = decChars h ++ '時' :: rest := by
    rw [show (' ' :: (decChars h ++ '時' :: rest)).dropWhile isJsSpace
        = (decChars h ++ '時' :: rest).dropWhile isJsSpace from rfl]
    exact dropWhile_space_decChars h hn _
  simp only [matchHourGroup, hstep]
  rw [parse2Digits_decChars h hn ('時' :: rest) (head_all _ _ _ (by decide))]
  simp [expectChar]

theorem matchMinuteGroup_time (mi : Nat) (hn : mi < 100) (rest : List Char) :
    matchMinuteGroup (decChars mi ++ '分' :: rest) = (some mi, rest) := by
  simp only [matchMinuteGroup]
  rw [dropWhile_space_decChars mi hn ('分' :: rest)]
  rw [parse2Digits_decChars mi hn ('分' :: rest) (head_all _ _ _ (by decide))]
  simp [expectChar]

theorem matchAbsolute_render (m d : Nat) (hm : m < 100) (hd : d < 100)
    (hh mm : Option Nat) (hh100 : ∀ h ∈ hh, h < 100) (mm100 : ∀ mi ∈ mm, mi < 100) :
    matchAbsolute (decChars m ++ '月' :: (decChars d ++ '日' :: relTail hh mm))
      = some (m, d, hh, if hh.isSome then mm else none) := by
  cases hh with
  | none =>
    have e1 := parse2Digits_decChars m hm ('月' :: (decChars d ++ ['日']))
      (head_all _ _ _ (by decide))
    have e2 := parse2Digits_decChars d hd ['日'] (head_all _ _ _ (by decide))
    simp [matchAbsolute, relTail, e1, e2, expectChar,
      matchHourGroup_nil, matchMinuteGroup_nil]
  | some h =>
    have hh' : h < 100 := hh100 h rfl
    cases mm with
    | none =>
      have e1 := parse2Digits_decChars m hm
        ('月' :: (decChars d ++ '日' :: ' ' :: (decChars h ++ ['時'])))
        (head_all _ _ _ (by decide))
      have e2 := parse2Digits_decChars d hd ('日' :: ' ' :: (decChars h ++ ['時']))
        (head_all _ _ _ (by decide))
      have e3 := matchHourGroup_time h hh' []
      simp [matchAbsolute, relTail, e1, e2, expectChar, e3, matchMinuteGroup_nil]
    | some mi =>
      have mi' : mi < 100 := mm100 mi rfl
      have e1 := parse2Digits_decChars m hm
        ('月' :: (decChars d ++ '日' :: ' ' :: (decChars h ++ '時' :: (decChars mi ++ ['分']))))
        (head_all _ _ _ (by decide))
      have e2 := parse2Digits_decChars d hd
        ('日' :: ' ' :: (decChars h ++ '時' :: (decChars mi ++ ['分'])))
        (head_all _ _ _ (by decide))
      have e3 := matchHourGroup_time h hh' (decChars mi ++ ['分'])
      have e4 := matchMinuteGroup_time mi mi' []
      simp [matchAbsolute, relTail, e1, e2, expectChar, e3, e4]

theorem matchRelative_render_none (m : Nat) (hm : m < 100) (rest : List Char) :
    matchRelative (decChars m ++ '月' :: rest) = none := by
  obtain ⟨c, cs, hdc, hdig, hsp, hcKyo, hcMei⟩ := decChars_cons m hm
  obtain ⟨hmem, hnil, _, _⟩ := decChars_digits m hm
  have hrd := readDigits_append (decChars m) ('月' :: rest)
      (fun x hx => (hmem x hx).1) (head_all _ _ _ (by decide))
  have h1 : matchRelAlt ['今', '日'] 0 (decChars m ++ '月' :: rest) = none := by
    rw [hdc]
    simp only [List.cons_append, matchRelAlt, stripLiteral]
    rw [if_neg hcKyo]
  have h2 : matchRelAlt ['明', '日'] 1 (decChars m ++ '月' :: rest) = none := by
    rw [hdc]
    simp only [List.cons_append, matchRelAlt, stripLiteral]
    rw [if_neg hcMei]
  have h3 : matchRelAlt ['明', '後', '日'] 2 (decChars m ++ '月' :: rest) = none := by
    rw [hdc]
    simp only [List.cons_append, matchRelAlt, stripLiteral]
    rw [if_neg hcMei]
  have h4 : matchRelNDays (decChars m ++ '月' :: rest) = none := by
    simp only [matchRelNDays, hrd]
    rw [if_neg hnil]
    simp [stripLiteral]
  simp only [matchRelative, h1, h2, h3, h4]

theorem any_false_le (o : Option Nat) (bound : Nat)
    (h : ¬((o.any fun v => decide (bound < v)) = true)) : ∀ x ∈ o, x ≤ bound := by
  intro x hx
  cases o with
  | none => simp at hx
  | some v =>
    have : some v = some x := hx
    injection this with hv
    subst hv
    simp [Option.any] at h
    omega

theorem parseDeadlineInput_render_isSome (now2 : Int) (m d : Nat) (hh mm : Option Nat)
    (hm1 : 1 ≤ m) (hm2 : m ≤ 12) (hd1 : 1 ≤ d) (hd2 : d ≤ 31)
    (hh23 : ∀ h ∈ hh, h ≤ 23) (mm59 : ∀ mi ∈ mm, mi ≤ 59) :
    (parseDeadlineInput now2 (renderDeadline m d hh mm)).isSome = true := by
  have hm100 : m < 100 := by omega
  have hd100 : d < 100 := by omega
  have hh100 : ∀ h ∈ hh, h < 100 := fun h hmem => by have := hh23 h hmem; omega
  have mm100 : ∀ mi ∈ mm, mi < 100 := fun mi hmem => by have := mm59 mi hmem; omega
  have hdata := renderDeadline_data m d hm100 hd100 hh mm hh100 mm100
  have htrim : jsTrimList (renderDeadline m d hh mm).data
      = decChars m ++ '月' :: (decChars d ++ '日' :: relTail hh mm) := by
    rw [hdata]
    apply jsTrimList_eq
    · obtain ⟨c, cs, hdc, _, hsp, _, _⟩ := decChars_cons m hm100
      rw [hdc]
      exact head_all _ _ _ hsp
    · exact render_last_ok m d hh mm
  have hrel := matchRelative_render_none m hm100 (decChars d ++ '日' :: relTail hh mm)
  have habs := matchAbsolute_render m d hm100 hd100 hh mm hh100 mm100
  have hv2 : (hh.any fun h => decide (23 < h)) = false := by
    cases hh with
    | none => rfl
    | some h =>
      have := hh23 h rfl
      simp [Option.any]
      omega
  have hv3 : ((if hh.isSome then mm else none).any fun mi => decide (59 < mi)) = false := by
    split_ifs
    · cases mm with
      | none => rfl
      | some mi =>
        have := mm59 mi rfl
        simp [Option.any]
        omega
    · rfl
  simp only [parseDeadlineInput, htrim, hrel, habs]
  rw [if_neg (by omega)]
  simp [hv2, hv3]

/-- C9: the parse/render round-trip fails on the program.  The relative
grammar accepts `100000000日後`, but the target Date exceeds the ECMAScript
time-value limit of 8.64e15 ms, so `Date.UTC` yields an Invalid Date and the
parser returns the accepted string `NaN月NaN日` — which `parseDeadlineInput`
rejects when parsed again (a small in-range input such as `12月25日` does
round-trip). -/
theorem claim_C9_roundtrip_fails :
    parseDeadlineInput 1760140800000 "100000000日後" = some "NaN月NaN日" ∧
    parseDeadlineInput 1760140800000 "NaN月NaN日" = none ∧
    parseDeadlineInput 1760140800000 "12月25日" = some "12月25日" := by
  refine ⟨by decide, by decide, by decide⟩



/-- Idle fallback of the state machine: an allowed sender's trimmed message
that matches no command keyword is echoed back verbatim, with state and
tasks unchanged. -/
theorem idle_echo (now : Int) (allowedId : String) (tasks : List Task) (text : String)
    (ha : allowedId ≠ "") (h0 : jsTrim text = text)
    (h1 : text ≠ "タスク追加") (h2 : text ≠ "タスク") (h3 : text ≠ "タスク完了")
    (h4 : text ≠ "タスク削除") :
    textEventHandler now allowedId (some allowedId) text .idle tasks
      = ⟨.idle, tasks, some text⟩ := by
  unfold textEventHandler
  rw [h0]
  simp [ha, h1, h2, h3, h4]

/-- C2: the reminder scheduler does not fire the universal `30m` slot for
priorities 1-3, contradicting the code's own comment (`優先度1〜4共通`): a
priority-1 task 25 minutes before its deadline — inside the 30-minute window,
with `30m` unsent and every push succeeding — receives no notification at
all, because the priority-1 branch ends in `continue` before the 30-minute
block. -/
theorem claim_C2_priority123_skip_30m :
    parseDeadlineToDate (utcMs 2025 12 25 2 35) "12月25日 3時"
        = some ((utcMs 2025 12 25 2 35 : Int) + 1500000) ∧
    ((1080000 : Int) < 1500000 ∧ (1500000 : Int) ≤ 1800000) ∧
    remindTaskEmit (fun _ => true) (utcMs 2025 12 25 2 35)
        { id := "t1", name := "A", priority := .int 1, deadline := "12月25日 3時",
          remindersSent := some [] } = [] ∧
    remindTaskEmit (fun _ => true) (utcMs 2025 12 25 2 35)
        { id := "t4", name := "A", priority := .int 4, deadline := "12月25日 3時",
          remindersSent := some [] } = ["30m"] := by
  refine ⟨by decide, by decide, by decide, by decide⟩

/-- C3: at the priority step of the add flow, the non-numeric input `"abc"`
parses to NaN, the `p < 1 || p > 4` guard is false for NaN, and the handler
advances to the deadline step storing a NaN draft priority — instead of
re-prompting without advancing as the claim states.  (An out-of-range
number such as `"5"` does re-prompt.) -/
theorem claim_C3_nan_priority_advances :
    textEventHandler 1760140800000 "U1" (some "U1") "abc"
        (.task_add .priority (some "buy milk") none) []
      = ⟨.task_add .deadline (some "buy milk") (some .nan), [],
         some "いつまでに終わらせたい？（例: 明日 / 3日後 / 12月25日14時30分）"⟩ ∧
    textEventHandler 1760140800000 "U1" (some "U1") "5"
        (.task_add .priority (some "buy milk") none) []
      = ⟨.task_add .priority (some "buy milk") none, [],
         some "1〜4の数字で入力してください。優先順位は？1-4"⟩ := by
  refine ⟨by decide, by decide⟩

/-- C4: the deadline parser accepts the relative grammar (今日/明日/明後日/
N日後, optionally with hour and minute) and renders it in the same
normalized month/day form as absolute input; and the add-flow scenario
タスク追加 → "buy milk" → "2" → 明日 stores a task with priority 2,
tomorrow's normalized date (the clock 1760140800000 ms is JST
2025-10-11 09:00, so tomorrow renders as 10月12日) and an empty sent-slot
record, and replies with the understood/reminders-will-follow
acknowledgement. -/
theorem claim_C4_relative_deadline_add_flow :
    (parseDeadlineInput 1760140800000 "今日" = some "10月11日" ∧
     parseDeadlineInput 1760140800000 "明日" = some "10月12日" ∧
     parseDeadlineInput 1760140800000 "明後日" = some "10月13日" ∧
     parseDeadlineInput 1760140800000 "3日後" = some "10月14日" ∧
     parseDeadlineInput 1760140800000 "3日後の18時30分" = some "10月14日 18時30分" ∧
     parseDeadlineInput 1760140800000 "12月25日 14時30分" = some "12月25日 14時30分") ∧
    (textEventHandler 1760140800000 "U1" (some "U1") "タスク追加" .idle []
        = ⟨.task_add .task_name none none, [], some "タスク名は？"⟩ ∧
     textEventHandler 1760140800000 "U1" (some "U1") "buy milk"
         (.task_add .task_name none none) []
        = ⟨.task_add .priority (some "buy milk") none, [], some "優先順位は？1-4"⟩ ∧
     textEventHandler 1760140800000 "U1" (some "U1") "2"
         (.task_add .priority (some "buy milk") none) []
        = ⟨.task_add .deadline (some "buy milk") (some (.int 2)), [],
           some "いつまでに終わらせたい？（例: 明日 / 3日後 / 12月25日14時30分）"⟩ ∧
     textEventHandler 1760140800000 "U1" (some "U1") "明日"
         (.task_add .deadline (some "buy milk") (some (.int 2))) []
        = ⟨.idle,
           [{ id := "task-1760140800000", name := "buy milk", priority := .int 2,
              deadline := "10月12日", remindersSent := some [] }],
           some "了解です。優先順位に合わせてリマインドしていきます。"⟩) := by
  exact ⟨⟨by decide, by decide, by decide, by decide, by decide, by decide⟩,
    by decide, by decide, by decide, by decide⟩

/-- C5 counterexample: the inbound text `"my id"` from a sender other than
the allow-listed identity gets no reply at all — there is no `my id` special
case anywhere in `textEventHandler` — refuting the claim that the handler
answers any sender with their identity. -/
theorem claim_C5_counterexample :
    textEventHandler 0 "Uallowed" (some "Uother") "my id" .idle []
      = ⟨.idle, [], none⟩ := by
  decide

/-- C5 amended: every message from a sender that is not the allow-listed
identity — including `"my id"` — is silently ignored: no reply is sent and
neither the conversation state nor the task list changes. -/
theorem claim_C5_amended (now : Int) (allowedId : String) (sender : Option String)
    (text : String) (st : ConvState) (tasks : List Task)
    (h : ¬(allowedId ≠ "" ∧ sender = some allowedId)) :
    textEventHandler now allowedId sender text st tasks = ⟨st, tasks, none⟩ := by
  simp only [textEventHandler]
  rw [if_pos h]

/-- Witness for the amended C5 at a concrete non-allow-listed sender. -/
theorem claim_C5_amended_witness :
    textEventHandler 5 "U1" none "my id" .idle [] = ⟨.idle, [], none⟩ :=
  claim_C5_amended 5 "U1" none "my id" .idle [] (by decide)

/-- C10: a cancel command (キャンセル/やめる/中止/cancel) arriving while the
state is `Idle` is not treated as a cancellation: it falls through to the
idle echo fallback, the text is echoed back, and the state stays `Idle`. -/
theorem claim_C10_cancel_in_idle_echoed (now : Int) (allowedId : String)
    (tasks : List Task) (text : String)
    (ha : allowedId ≠ "") (ht : text ∈ cancelWords) :
    textEventHandler now allowedId (some allowedId) text .idle tasks
      = ⟨.idle, tasks, some text⟩ := by
  simp only [cancelWords] at ht
  fin_cases ht <;>
    exact idle_echo _ _ _ _ ha (by decide) (by decide) (by decide) (by decide) (by decide)

/-- Witness for C10 at a concrete cancel word. -/
theorem claim_C10_cancel_in_idle_echoed_witness :
    textEventHandler 0 "U1" (some "U1") "キャンセル" .idle []
      = ⟨.idle, [], some "キャンセル"⟩ :=
  claim_C10_cancel_in_idle_echoed 0 "U1" [] "キャンセル" (by decide) (by decide)


end KodaiBot
